import Mathlib

/-!
Shallow embedding of the trello-analytics metric engine
(`data_processor.py`, `config.py`, `app.py`) together with proofs of the
specification claims.

Modelling conventions:
* Python `datetime` values are modelled by `Datetime`: an integer epoch in
  seconds plus an awareness flag (`aware = true` for timezone-aware values;
  all aware values in this program are UTC, produced by
  `fromisoformat(s.replace('Z', '+00:00'))` or `pytz.UTC.localize`).
  Second granularity is used in place of microseconds; the day length is
  86400 and `.date()` is floor division of the epoch by 86400.
* A pandas DataFrame built from a list of per-card dicts is modelled as a
  `List CardRow`.  `pd.DataFrame([])` has no columns, so any column access
  on the empty frame raises `KeyError`; operations therefore return
  `Except PdError _` and fail with `.keyError` on the empty row list.
* Comparing a column of uniformly tz-aware values (dtype datetime64 with
  NaT for missing) against a bound of the other awareness raises a
  TypeError in pandas; this is `.tzMismatch`.  Missing values (NaT)
  compare as `false`.  Mixed-awareness columns (object dtype) do not occur
  in this development's theorems and are not modelled further.
* `sorted(actions, key=lambda x: x['date'])` sorts by the ISO-8601 date
  string; Trello emits a uniform zero-offset format, for which the string
  order coincides with the chronological order, so the model sorts by the
  parsed epoch using a stable insertion sort (Python's sort is stable).
-/

/-- Python `datetime`: epoch seconds plus timezone-awareness flag. -/
structure Datetime where
  epoch : Int
  aware : Bool
deriving DecidableEq, Repr

/-- `pytz.UTC.localize`: attach UTC to a naive datetime, keeping the wall
clock (the epoch field is unchanged).  The source only calls this on naive
values; on aware values our total function is the identity. -/
def localize_utc (d : Datetime) : Datetime :=
  { d with aware := true }

/-- `.date()` as a day number: floor division of the epoch by 86400.
All aware datetimes in the program carry offset +00:00, so `.date()` is
the UTC calendar day. -/
def dateOf (d : Datetime) : Int :=
  d.epoch / 86400

/-- One entry of a card's `actions` list: `type`, `date`, and the
`data.listAfter.name` payload when present. -/
structure TrelloAction where
  type : String
  date : Datetime
  listAfterName : Option String
deriving DecidableEq, Repr

/-- A raw Trello card as consumed by `DataProcessor`. -/
structure TrelloCard where
  id : String
  name : String
  closed : Bool
  idList : Option String
  dateLastActivity : Option Datetime
  due : Option Datetime
  dueComplete : Bool
  idMembers : List String
  labels : List String
  actions : List TrelloAction
deriving DecidableEq, Repr

/-- A board list (identifier and name). -/
structure TrelloList where
  id : String
  name : String
deriving DecidableEq, Repr

/-- A board member (identifier and display name). -/
structure TrelloMember where
  id : String
  fullName : String
deriving DecidableEq, Repr

/-- The `trello_data` dictionary handed to `DataProcessor.__init__`.
Card label names are already reduced to the non-empty name strings
(`[label['name'] for label in card.get('labels', []) if label.get('name')]`
is applied per card in `labels`). -/
structure TrelloData where
  board : String
  lists : List TrelloList
  members : List TrelloMember
  cards : List TrelloCard
  labels : List String
deriving DecidableEq, Repr

/-- One row of `self.df_cards` (the dict appended per card in
`_create_cards_dataframe`). -/
structure CardRow where
  id : String
  name : String
  list : String
  created_date : Option Datetime
  completed_date : Option Datetime
  due_date : Option Datetime
  is_overdue : Bool
  is_closed : Bool
  members : List String
  member_count : Nat
  labels : List String
  label_count : Nat
  completion_time_days : Option Rat
deriving DecidableEq, Repr

/-- Python `str.strip()`: drop leading and trailing whitespace. -/
def isPySpace (c : Char) : Bool :=
  c == ' ' || c == '\t' || c == '\n' || c == '\r' || c == '\x0b' || c == '\x0c'

/-- Python `str.strip()` on the character list of a string. -/
def pyStrip (s : String) : String :=
  ⟨((s.data.dropWhile isPySpace).reverse.dropWhile isPySpace).reverse⟩

/-- Python `str.lower()`, restricted to the ASCII and Latin-1 uppercase
letters (the only ones this program's list names use; covers the Í of
"Concluído"). -/
def pyLowerChar (c : Char) : Char :=
  if 65 ≤ c.toNat && c.toNat ≤ 90 then Char.ofNat (c.toNat + 32)
  else if 192 ≤ c.toNat && c.toNat ≤ 222 && c.toNat != 215 then Char.ofNat (c.toNat + 32)
  else c

/-- Python `str.lower()` on a string. -/
def pyLower (s : String) : String :=
  ⟨s.data.map pyLowerChar⟩

/-- `name.strip().lower()` — the normalization used everywhere list names
are compared. -/
def normName (s : String) : String :=
  pyLower (pyStrip s)

/-- Stable insertion into a sorted list (model of Python's stable sort). -/
def insertSorted (le : α → α → Bool) (x : α) : List α → List α
  | [] => [x]
  | y :: ys => if le x y then x :: y :: ys else y :: insertSorted le x ys

/-- Stable sort (extensionally the timsort used by `sorted`). -/
def sortBy (le : α → α → Bool) : List α → List α
  | [] => []
  | x :: xs => insertSorted le x (sortBy le xs)

/-- Comparison key for `sorted(card['actions'], key=lambda x: x['date'])`. -/
def actionLe (a b : TrelloAction) : Bool :=
  decide (a.date.epoch ≤ b.date.epoch)

/-- Dictionary lookup for `{lst['id']: lst['name']}`-style dicts, where a
repeated key keeps the last binding. -/
def dictLookup (pairs : List (String × String)) (k : String) : Option String :=
  (pairs.reverse.find? (fun p => p.1 == k)).map (fun p => p.2)

/-- `self.lists_dict` as an association list. -/
def listsPairs (data : TrelloData) : List (String × String) :=
  data.lists.map (fun l => (l.id, l.name))

/-- `self.members_dict` as an association list. -/
def membersPairs (data : TrelloData) : List (String × String) :=
  data.members.map (fun m => (m.id, m.fullName))

/-- The body of the `for card in self.cards` loop of
`_create_cards_dataframe`: `none` when the card is archived, otherwise the
dict appended to `cards_data`.  `now` is the epoch of `datetime.now(...)`
used by the overdue check. -/
def process_card (listsD membersD : List (String × String)) (now : Int)
    (card : TrelloCard) : Option CardRow :=
  if card.closed then none
  else
    let list_name := (card.idList.bind (dictLookup listsD)).getD "Desconhecida"
    let sorted_actions := sortBy actionLe card.actions
    -- earliest createCard action, if the action list is non-empty (truthy)
    let created_from_actions :=
      if card.actions.isEmpty then none
      else (sorted_actions.find? (fun a => a.type == "createCard")).map (fun a => a.date)
    let created_date :=
      match created_from_actions with
      | some d => some d
      | none => card.dateLastActivity
    let completed_date :=
      if normName list_name == "concluído" then
        let completed_from_actions :=
          if card.actions.isEmpty then none
          else
            ((sorted_actions.reverse.find? (fun a =>
                a.type == "updateCard" &&
                  match a.listAfterName with
                  | some n => normName n == "concluído"
                  | none => false)).map (fun a => a.date))
        match completed_from_actions with
        | some d => some d
        | none => card.dateLastActivity
      else none
    let due_date := card.due
    let is_overdue :=
      match card.due with
      | some d => !card.dueComplete && decide (d.epoch < now)
      | none => false
    let member_names := card.idMembers.map (fun mid => (dictLookup membersD mid).getD "Desconhecido")
    let completion_time_days : Option Rat :=
      match created_date, completed_date with
      | some c, some d => some (((d.epoch - c.epoch : Int) : Rat) / 86400)
      | _, _ => none
    some
      { id := card.id
        name := card.name
        list := list_name
        created_date := created_date
        completed_date := completed_date
        due_date := due_date
        is_overdue := is_overdue
        is_closed := card.closed
        members := member_names
        member_count := member_names.length
        labels := card.labels
        label_count := card.labels.length
        completion_time_days := completion_time_days }

/-- `DataProcessor._create_cards_dataframe`: the row list of
`self.df_cards`. -/
def create_cards_dataframe (data : TrelloData) (now : Int) : List CardRow :=
  data.cards.filterMap (process_card (listsPairs data) (membersPairs data) now)

/-- Errors the pandas layer can raise inside the metric operations:
`KeyError(col)` when a column is accessed on the column-less empty frame,
and the TypeError pandas raises when a datetime64 column and a comparison
bound disagree on timezone awareness. -/
inductive PdError where
  | keyError (col : String)
  | tzMismatch
deriving DecidableEq, Repr

/-- Elementwise `column >= bound` for an optional datetime cell: NaT
compares `false`; values of mismatched awareness raise. -/
def cellGe (v : Option Datetime) (bound : Datetime) : Except PdError Bool :=
  match v with
  | none => .ok false
  | some d =>
      if d.aware == bound.aware then .ok (decide (bound.epoch ≤ d.epoch))
      else .error .tzMismatch

/-- Elementwise `column <= bound`. -/
def cellLe (v : Option Datetime) (bound : Datetime) : Except PdError Bool :=
  match v with
  | none => .ok false
  | some d =>
      if d.aware == bound.aware then .ok (decide (d.epoch ≤ bound.epoch))
      else .error .tzMismatch

/-- Effectful filter over the row list (the boolean-mask filtering
`df[mask]`, which raises if building the mask raises on any row). -/
def filterE (p : α → Except ε Bool) : List α → Except ε (List α)
  | [] => .ok []
  | x :: xs => do
      let b ← p x
      let rest ← filterE p xs
      pure (if b then x :: rest else rest)

/-- The mask `(df['created_date'] >= start) & (df['created_date'] <= end)`
for one row. -/
def createdMask (s e : Datetime) (r : CardRow) : Except PdError Bool := do
  let a ← cellGe r.created_date s
  let b ← cellLe r.created_date e
  pure (a && b)

/-- The corresponding mask on `completed_date`. -/
def completedMask (s e : Datetime) (r : CardRow) : Except PdError Bool := do
  let a ← cellGe r.completed_date s
  let b ← cellLe r.completed_date e
  pure (a && b)

/-- `DataProcessor.filter_by_date_range`: localize naive bounds to UTC,
then keep the cards created inside the inclusive range.  On an empty card
table `df['created_date']` raises `KeyError` (the frame has no columns). -/
def filter_by_date_range (df : List CardRow) (start_date end_date : Datetime) :
    Except PdError (List CardRow) :=
  if df.isEmpty then .error (.keyError "created_date")
  else
    let s := if start_date.aware then start_date else localize_utc start_date
    let e := if end_date.aware then end_date else localize_utc end_date
    filterE (createdMask s e) df

/-- `DataProcessor.get_cards_created_count`. -/
def get_cards_created_count (df : List CardRow) (start_date end_date : Datetime) :
    Except PdError Nat :=
  (filter_by_date_range df start_date end_date).map List.length

/-- `DataProcessor.get_cards_completed_count` (the same localization and
filtering, inlined over `completed_date` in the source). -/
def get_cards_completed_count (df : List CardRow) (start_date end_date : Datetime) :
    Except PdError Nat :=
  if df.isEmpty then .error (.keyError "completed_date")
  else
    let s := if start_date.aware then start_date else localize_utc start_date
    let e := if end_date.aware then end_date else localize_utc end_date
    (filterE (completedMask s e) df).map List.length

/-- `DataProcessor.get_cards_in_progress_count`: cards whose current list
normalizes to "fazendo"; no date filtering. -/
def get_cards_in_progress_count (df : List CardRow) : Except PdError Nat :=
  if df.isEmpty then .error (.keyError "list")
  else .ok (df.filter (fun r => normName r.list == "fazendo")).length

/-- `sort_values('due_date')` key: ascending by due date, missing values
last. -/
def dueLe (a b : CardRow) : Bool :=
  match a.due_date, b.due_date with
  | some x, some y => decide (x.epoch ≤ y.epoch)
  | some _, none => true
  | none, some _ => false
  | none, none => true

/-- `DataProcessor.get_overdue_cards`. -/
def get_overdue_cards (df : List CardRow) : Except PdError (List CardRow) :=
  if df.isEmpty then .error (.keyError "is_overdue")
  else .ok (sortBy dueLe (df.filter (fun r => r.is_overdue)))

/-- One record of the `member_cards` explosion in `get_cards_by_member`:
member name, `created` (always 1), `completed` (1 when the card has a
completion date). -/
structure MemberCardRec where
  member : String
  created : Nat
  completed : Nat
deriving DecidableEq, Repr

/-- A row of the grouped-by-member frame. -/
structure MemberRow where
  member : String
  created : Nat
  completed : Nat
deriving DecidableEq, Repr

/-- The per-card explosion: one record per assigned member, or a single
"Sem atribuição" record for unassigned cards. -/
def explodeMembers (rows : List CardRow) : List MemberCardRec :=
  rows.flatMap (fun r =>
    if r.members.isEmpty then
      [{ member := "Sem atribuição", created := 1,
         completed := if r.completed_date.isSome then 1 else 0 }]
    else
      r.members.map (fun m =>
        { member := m, created := 1,
          completed := if r.completed_date.isSome then 1 else 0 }))

/-- The distinct keys of the explosion (set of group labels). -/
def uniqueKeys : List String → List String
  | [] => []
  | x :: xs =>
      let rest := uniqueKeys xs
      if rest.contains x then rest else x :: rest

/-- `groupby('member').sum().reset_index()`: group keys in ascending
order, each with the summed `created` and `completed` columns. -/
def groupByMemberSum (recs : List MemberCardRec) : List MemberRow :=
  (sortBy (fun a b => decide (a ≤ b)) (uniqueKeys (recs.map (fun r => r.member)))).map
    (fun k =>
      let grp := recs.filter (fun r => r.member == k)
      { member := k
        created := (grp.map (fun r => r.created)).sum
        completed := (grp.map (fun r => r.completed)).sum })

/-- `DataProcessor.get_cards_by_member`: explode the filtered cards per
member, group and sum, sort descending by `created` (the source's
quicksort is modelled by a stable sort; the multiset of rows agrees). -/
def get_cards_by_member (df : List CardRow) (start_date end_date : Datetime) :
    Except PdError (List MemberRow) := do
  let filtered ← filter_by_date_range df start_date end_date
  let member_cards := explodeMembers filtered
  if member_cards.isEmpty then pure []
  else pure (sortBy (fun a b => decide (b.created ≤ a.created)) (groupByMemberSum member_cards))

/-- The label explosion of `get_cards_by_label`. -/
def explodeLabels (rows : List CardRow) : List String :=
  rows.flatMap (fun r => if r.labels.isEmpty then ["Sem label"] else r.labels)

/-- A `(label, count)` row. -/
structure LabelRow where
  label : String
  count : Nat
deriving DecidableEq, Repr

/-- `DataProcessor.get_cards_by_label`: count label occurrences of the
filtered cards (Counter keeps first-appearance order), sort descending by
`count`. -/
def get_cards_by_label (df : List CardRow) (start_date end_date : Datetime) :
    Except PdError (List LabelRow) := do
  let filtered ← filter_by_date_range df start_date end_date
  let label_cards := explodeLabels filtered
  if label_cards.isEmpty then pure []
  else
    pure (sortBy (fun a b => decide (b.count ≤ a.count))
      ((uniqueKeys label_cards).reverse.map (fun l =>
        { label := l, count := label_cards.count l })))

/-- `DataProcessor.get_average_completion_time`.  The result is `some q`
for an ordinary float and `none` for the NaN that `Series.mean()` yields
when every `completion_time_days` in the filtered frame is missing. -/
def get_average_completion_time (df : List CardRow) (start_date end_date : Datetime) :
    Except PdError (Option Rat) :=
  if df.isEmpty then .error (.keyError "completed_date")
  else
    let s := if start_date.aware then start_date else localize_utc start_date
    let e := if end_date.aware then end_date else localize_utc end_date
    (filterE (completedMask s e) df).map (fun df_completed =>
      if df_completed.length = 0 then some 0
      else
        let vals := df_completed.filterMap (fun r => r.completion_time_days)
        if vals.isEmpty then none
        else some (vals.sum / vals.length))

/-- A row of the timeline frame. -/
structure TimelineRow where
  date : Datetime
  created : Nat
  completed : Nat
deriving DecidableEq, Repr

/-- `pd.date_range(start, end, freq='D')`: the timestamps
`start + k·86400` for `k = 0, …, (end − start).days`, empty when
`start > end`. -/
def date_range (s e : Datetime) : List Datetime :=
  if decide (s.epoch ≤ e.epoch) then
    (List.range ((e.epoch - s.epoch).toNat / 86400 + 1)).map
      (fun k : Nat => { epoch := s.epoch + (k : Int) * 86400, aware := s.aware })
  else []

/-- Whether an optional datetime cell falls on calendar day `d`
(`.dt.date` grouping; NaT rows are dropped by the `notna()` filter). -/
def onDay (v : Option Datetime) (d : Int) : Bool :=
  match v with
  | some t => dateOf t == d
  | none => false

/-- One timeline row: the day's timestamp, with the counts of cards
created and completed on that calendar day (`groupby('date').size()`
values, `0` when the day is absent from the grouped counts). -/
def timelineRowOf (df : List CardRow) (d : Datetime) : TimelineRow :=
  { date := d
    created := (df.filter (fun r => onDay r.created_date (dateOf d))).length
    completed := (df.filter (fun r => onDay r.completed_date (dateOf d))).length }

/-- `DataProcessor.get_cards_timeline`: one zero-initialized row per day
of the range, filled with the day's counts of created and completed cards
(counts taken over all cards, bucketed by calendar day). -/
def get_cards_timeline (df : List CardRow) (start_date end_date : Datetime) :
    Except PdError (List TimelineRow) :=
  if df.isEmpty then .error (.keyError "created_date")
  else
    let s := if start_date.aware then start_date else localize_utc start_date
    let e := if end_date.aware then end_date else localize_utc end_date
    .ok ((date_range s e).map (timelineRowOf df))

/-- Rounding of `.round(1)` (IEEE round-half-to-even at one decimal). -/
def roundHalfEven (q : Rat) : Int :=
  let f := ⌊q⌋
  let r := q - f
  if r < 1 / 2 then f
  else if 1 / 2 < r then f + 1
  else if f % 2 = 0 then f else f + 1

/-- `(x).round(1)` on a rational. -/
def round1 (q : Rat) : Rat :=
  (roundHalfEven (q * 10) : Rat) / 10

/-- A productivity-ranking row. -/
structure RankRow where
  member : String
  created : Nat
  completed : Nat
  completion_rate : Rat
deriving DecidableEq, Repr

/-- `DataProcessor.get_productivity_ranking`: the by-member table plus
`completion_rate = completed / created * 100` rounded to one decimal,
sorted descending by `completed`. -/
def get_productivity_ranking (df : List CardRow) (start_date end_date : Datetime) :
    Except PdError (List RankRow) := do
  let df_members ← get_cards_by_member df start_date end_date
  if df_members.isEmpty then pure []
  else
    pure (sortBy (fun a b => decide (b.completed ≤ a.completed))
      (df_members.map (fun m =>
        { member := m.member
          created := m.created
          completed := m.completed
          completion_rate := round1 ((m.completed : Rat) / (m.created : Rat) * 100) })))

/-- The resolved credential attributes of the `Config` class — the values
of `TRELLO_API_KEY`, `TRELLO_TOKEN` and `TRELLO_BOARD_ID` after the
`os.getenv` calls of config.py have applied their defaults. -/
structure Config where
  apiKey : String
  token : String
  boardId : String
deriving DecidableEq, Repr

/-- The credential environment: `none` models an unset variable, `some s`
a variable set (possibly to the empty string). -/
structure TrelloEnv where
  apiKey : Option String
  token : Option String
  boardId : Option String
deriving DecidableEq, Repr

/-- `os.getenv(name, default)`: the set value, else the default. -/
def getenv (v : Option String) (default : String) : String :=
  v.getD default

/-- The hardcoded default API key of config.py line 14. -/
def default_api_key : String := "06bde20d213e62b76dfc16aadc659311"

/-- The hardcoded default token of config.py line 15. -/
def default_token : String :=
  "ATTA7330848c309774820f07011274959360731a4993b8692979965382904"

/-- The hardcoded default board id of config.py line 16. -/
def default_board_id : String := "pOy2Ba0G"

/-- The `Config` class attributes as resolved from an environment by
config.py lines 14-16: every `os.getenv` carries a hardcoded non-empty
default credential, so an unset variable resolves to the default, never
to an empty value. -/
def configOf (env : TrelloEnv) : Config :=
  { apiKey := getenv env.apiKey default_api_key
    token := getenv env.token default_token
    boardId := getenv env.boardId default_board_id }

/-- `Config.is_configured`: `all([...])` over Python string truthiness. -/
def is_configured (c : Config) : Bool :=
  !(c.apiKey == "") && !(c.token == "") && !(c.boardId == "")

/-- The externally observable steps of `app.main`, in order. -/
inductive AppEvent where
  | showConfigPage
  | fetchBoardData
  | showError
  | renderDashboard
deriving DecidableEq, Repr

/-- Control flow of `app.main`: the configuration check happens first and
an unconfigured app only shows the configuration page; otherwise the data
load (the only network access) runs and the dashboard or an error page is
rendered. -/
def main_events (c : Config) (fetchOk : Bool) : List AppEvent :=
  if !is_configured c then [.showConfigPage]
  else .fetchBoardData :: (if fetchOk then [.renderDashboard] else [.showError])


/-- Inserting into a list is a permutation of consing. -/
theorem insertSorted_perm (le : α → α → Bool) (x : α) (l : List α) :
    List.Perm (insertSorted le x l) (x :: l) := by
  induction l with
  | nil => simp [insertSorted]
  | cons y ys ih =>
      simp only [insertSorted]
      split
      · exact List.Perm.refl _
      · exact (ih.cons y).trans (List.Perm.swap x y ys)

/-- `sortBy` permutes its input. -/
theorem sortBy_perm (le : α → α → Bool) (l : List α) : List.Perm (sortBy le l) l := by
  induction l with
  | nil => simp [sortBy]
  | cons x xs ih => exact (insertSorted_perm le x (sortBy le xs)).trans (ih.cons x)

/-- Membership is preserved by `sortBy`. -/
theorem mem_sortBy {le : α → α → Bool} {l : List α} {a : α} :
    a ∈ sortBy le l ↔ a ∈ l :=
  (sortBy_perm le l).mem_iff

/-- Insertion preserves sortedness for a total, transitive comparison. -/
theorem pairwise_insertSorted (le : α → α → Bool)
    (htot : ∀ a b, le a b = true ∨ le b a = true)
    (htrans : ∀ a b c, le a b = true → le b c = true → le a c = true)
    (x : α) (l : List α) (hl : l.Pairwise (fun a b => le a b = true)) :
    (insertSorted le x l).Pairwise (fun a b => le a b = true) := by
  induction l with
  | nil => simp [insertSorted]
  | cons y ys ih =>
      rcases List.pairwise_cons.mp hl with ⟨hy, hys⟩
      simp only [insertSorted]
      split
      · rename_i hxy
        refine List.pairwise_cons.mpr ⟨?_, hl⟩
        intro b hb
        rcases List.mem_cons.mp hb with h | hb2
        · exact h ▸ hxy
        · exact htrans _ _ _ hxy (hy b hb2)
      · rename_i hxy
        have hyx : le y x = true := by
          rcases htot x y with h | h
          · exact absurd h hxy
          · exact h
        refine List.pairwise_cons.mpr ⟨?_, ih hys⟩
        intro b hb
        rcases List.mem_cons.mp ((insertSorted_perm le x ys).mem_iff.mp hb) with h | hb2
        · exact h ▸ hyx
        · exact hy b hb2

/-- `sortBy` sorts, for a total and transitive comparison. -/
theorem sortBy_pairwise (le : α → α → Bool)
    (htot : ∀ a b, le a b = true ∨ le b a = true)
    (htrans : ∀ a b c, le a b = true → le b c = true → le a c = true)
    (l : List α) : (sortBy le l).Pairwise (fun a b => le a b = true) := by
  induction l with
  | nil => simp [sortBy]
  | cons x xs ih => exact pairwise_insertSorted le htot htrans x _ ih

/-- The element returned by `find?` on a `Pairwise`-ordered list is
related to every other matching element (it is the first match, hence
extremal for the order). -/
theorem find?_first_of_pairwise {p : α → Bool} {R : α → α → Prop} :
    ∀ {l : List α} {a : α}, l.Pairwise R → l.find? p = some a →
      ∀ b ∈ l, p b = true → b = a ∨ R a b := by
  intro l
  induction l with
  | nil => intro a _ h; simp at h
  | cons x xs ih =>
      intro a hp hf b hb hpb
      rcases List.pairwise_cons.mp hp with ⟨hx, hxs⟩
      by_cases hpx : p x = true
      · have hax : a = x := by
          rw [List.find?_cons_of_pos _ hpx] at hf
          exact (Option.some_inj.mp hf).symm
        subst hax
        rcases List.mem_cons.mp hb with h | hb2
        · exact Or.inl h
        · exact Or.inr (hx b hb2)
      · rw [List.find?_cons_of_neg _ (by simpa using hpx)] at hf
        rcases List.mem_cons.mp hb with h | hb2
        · exact absurd (h ▸ hpb) hpx
        · exact ih hxs hf b hb2 hpb

/-- When the effectful predicate succeeds pointwise, `filterE` is the
plain filter. -/
theorem filterE_eq_ok {p : α → Except ε Bool} {q : α → Bool}
    {l : List α} (h : ∀ x ∈ l, p x = .ok (q x)) :
    filterE p l = .ok (l.filter q) := by
  induction l with
  | nil => rfl
  | cons x xs ih =>
      have hx := h x (List.mem_cons_self x xs)
      have hxs := ih (fun y hy => h y (List.mem_cons_of_mem x hy))
      simp only [filterE, hx, hxs, List.filter_cons, bind, Except.bind, pure, Except.pure]

/-- `uniqueKeys` preserves membership. -/
theorem mem_uniqueKeys : ∀ {l : List String} {k : String}, k ∈ uniqueKeys l ↔ k ∈ l := by
  intro l
  induction l with
  | nil => intro k; simp [uniqueKeys]
  | cons x xs ih =>
      intro k
      simp only [uniqueKeys, List.mem_cons]
      by_cases h : (uniqueKeys xs).contains x = true
      · have hx : x ∈ xs := ih.mp (by simpa using h)
        simp only [h, if_true, ih]
        constructor
        · exact Or.inr
        · rintro (rfl | hk)
          · exact hx
          · exact hk
      · have hx : x ∉ xs := fun hm => h (by simpa using ih.mpr hm)
        simp [hx, List.mem_cons, ih]

/-- Sums distribute over pointwise addition under `map`. -/
theorem sum_map_add_distrib (l : List α) (f g : α → Nat) :
    (l.map (fun x => f x + g x)).sum = (l.map f).sum + (l.map g).sum := by
  induction l with
  | nil => rfl
  | cons x xs ih =>
      simp only [List.map_cons, List.sum_cons, ih]
      omega

/-- Summing the indicator of one value over a duplicate-free list yields
its membership indicator. -/
theorem sum_indicator_nodup (days : List Int) (hnd : days.Nodup) (t : Int) :
    (days.map (fun d => if t = d then (1 : Nat) else 0)).sum
      = (if t ∈ days then 1 else 0) := by
  induction days with
  | nil => simp
  | cons d ds ih =>
      rcases List.nodup_cons.mp hnd with ⟨hd, hds⟩
      by_cases h : t = d
      · subst h
        simp [ih hds, hd]
      · simp [h, ih hds]

/-- The completed date of a processed card is `none` unless the card's
current list name normalizes to the done-list name. -/
theorem process_card_not_done_completed {L M : List (String × String)} {now : Int}
    {c : TrelloCard} {row : CardRow}
    (h : process_card L M now c = some row)
    (hne : normName row.list ≠ "concluído") :
    row.completed_date = none := by
  by_cases hc : c.closed = true
  · simp [process_card, hc] at h
  · have hc' : c.closed = false := by simpa using hc
    simp only [process_card, hc', Bool.false_eq_true, if_false] at h
    injection h with h
    subst h
    simp only at hne ⊢
    simp [hne]

/-- C1: for every card in the snapshot, the derived completed date is
`None` whenever the card's current list name does not case- and
whitespace-insensitively equal the done-list name, regardless of the
card's action history. -/
theorem completed_at_none_outside_done_list
    (data : TrelloData) (now : Int) (row : CardRow)
    (hmem : row ∈ create_cards_dataframe data now)
    (hne : normName row.list ≠ "concluído") :
    row.completed_date = none := by
  rcases List.mem_filterMap.mp hmem with ⟨c, _, hc⟩
  exact process_card_not_done_completed hc hne

/-- Scenario card for C1: moved Doing→Done at T1 = 100, Done→Doing at
T2 = 200 > T1, current list "Fazendo". -/
def c1Card : TrelloCard :=
  { id := "card1", name := "Tarefa", closed := false, idList := some "l1",
    dateLastActivity := some ⟨250, true⟩, due := none, dueComplete := false,
    idMembers := [], labels := [],
    actions :=
      [⟨"createCard", ⟨50, true⟩, none⟩,
       ⟨"updateCard", ⟨100, true⟩, some "Concluído"⟩,
       ⟨"updateCard", ⟨200, true⟩, some "Fazendo"⟩] }

/-- Snapshot around `c1Card`. -/
def c1Data : TrelloData :=
  { board := "Board", lists := [⟨"l1", "Fazendo"⟩, ⟨"l2", "Concluído"⟩],
    members := [], cards := [c1Card], labels := [] }

/-- The derived row of `c1Card`: completion is dropped although the
history contains a move into "Concluído" at 100. -/
def c1Row : CardRow :=
  { id := "card1", name := "Tarefa", list := "Fazendo",
    created_date := some ⟨50, true⟩, completed_date := none, due_date := none,
    is_overdue := false, is_closed := false, members := [], member_count := 0,
    labels := [], label_count := 0, completion_time_days := none }

/-- Witness for C1 at the claim's own scenario. -/
theorem completed_at_none_outside_done_list_witness :
    c1Row ∈ create_cards_dataframe c1Data 1000 ∧
    normName c1Row.list ≠ "concluído" ∧
    c1Row.completed_date = none :=
  ⟨by decide, by decide,
    completed_at_none_outside_done_list c1Data 1000 c1Row (by decide) (by decide)⟩

/-- C9 (code bug): with every credential variable absent from the
environment, the `os.getenv` defaults of config.py supply hardcoded
non-empty credentials, `is_configured()` passes, and `main` proceeds to
the network fetch instead of stopping at the configuration page; the
precondition check trips only when a variable is explicitly set to the
empty string. -/
theorem absent_env_still_fetches :
    is_configured (configOf ⟨none, none, none⟩) = true ∧
    main_events (configOf ⟨none, none, none⟩) true
      = [AppEvent.fetchBoardData, AppEvent.renderDashboard] ∧
    AppEvent.showConfigPage ∉ main_events (configOf ⟨none, none, none⟩) true ∧
    is_configured (configOf ⟨some "", some "tok", some "board"⟩) = false ∧
    main_events (configOf ⟨some "", some "tok", some "board"⟩) true
      = [AppEvent.showConfigPage] := by
  refine ⟨rfl, rfl, ?_, rfl, rfl⟩
  decide

/-- A board snapshot whose card list is empty. -/
def emptyBoardData : TrelloData :=
  { board := "Board", lists := [⟨"l1", "Fazendo"⟩], members := [],
    cards := [], labels := [] }

/-- Probe range start, 1970-01-01T00:00:00Z. -/
def probeStart : Datetime := ⟨0, true⟩

/-- Probe range end, 1970-01-02T00:00:00Z. -/
def probeEnd : Datetime := ⟨86400, true⟩

/-- C4 (code bug): with an empty card list the derived frame is
`pd.DataFrame([])`, which has no columns, and every aggregate operation
raises `KeyError` on its first column access instead of returning an
empty/zero result. -/
theorem empty_cards_operations_raise_keyerror :
    create_cards_dataframe emptyBoardData 0 = [] ∧
    filter_by_date_range [] probeStart probeEnd = .error (.keyError "created_date") ∧
    get_cards_created_count [] probeStart probeEnd = .error (.keyError "created_date") ∧
    get_cards_completed_count [] probeStart probeEnd = .error (.keyError "completed_date") ∧
    get_cards_in_progress_count [] = .error (.keyError "list") ∧
    get_overdue_cards [] = .error (.keyError "is_overdue") ∧
    get_cards_by_member [] probeStart probeEnd = .error (.keyError "created_date") ∧
    get_cards_by_label [] probeStart probeEnd = .error (.keyError "created_date") ∧
    get_average_completion_time [] probeStart probeEnd = .error (.keyError "completed_date") ∧
    get_cards_timeline [] probeStart probeEnd = .error (.keyError "created_date") ∧
    get_productivity_ranking [] probeStart probeEnd = .error (.keyError "created_date") :=
  ⟨rfl, rfl, rfl, rfl, rfl, rfl, rfl, rfl, rfl, rfl, rfl⟩

/-- The bound normalization `if d.tzinfo is None: d = pytz.UTC.localize(d)`
always yields the localized bound. -/
theorem bound_norm (dt : Datetime) :
    (if dt.aware then dt else localize_utc dt) = localize_utc dt := by
  rcases dt with ⟨ep, aw⟩
  cases aw <;> rfl

/-- Localization is idempotent. -/
theorem localize_utc_idem (dt : Datetime) :
    localize_utc (localize_utc dt) = localize_utc dt := rfl

/-- The pure range test on `created_date` used once awareness is uniform. -/
def createdInRangeB (s e : Datetime) (r : CardRow) : Bool :=
  match r.created_date with
  | some t => decide (s.epoch ≤ t.epoch) && decide (t.epoch ≤ e.epoch)
  | none => false

/-- The pure range test on `completed_date`. -/
def completedInRangeB (s e : Datetime) (r : CardRow) : Bool :=
  match r.completed_date with
  | some t => decide (s.epoch ≤ t.epoch) && decide (t.epoch ≤ e.epoch)
  | none => false

/-- Awareness of an optional datetime cell (missing cells never clash). -/
def cellAware (v : Option Datetime) : Bool :=
  match v with
  | some d => d.aware
  | none => true

/-- Against aware bounds, the created-date mask never raises on an aware
(or missing) cell. -/
theorem createdMask_ok {s e : Datetime} (hs : s.aware = true) (he : e.aware = true)
    {r : CardRow} (hr : cellAware r.created_date = true) :
    createdMask s e r = .ok (createdInRangeB s e r) := by
  cases hcd : r.created_date with
  | none =>
      simp [createdMask, cellGe, cellLe, createdInRangeB, hcd, bind, Except.bind, pure,
        Except.pure]
  | some d =>
      have hd : d.aware = true := by simpa [cellAware, hcd] using hr
      simp [createdMask, cellGe, cellLe, createdInRangeB, hcd, hd, hs, he, bind,
        Except.bind, pure, Except.pure]

/-- Against aware bounds, the completed-date mask never raises on an
aware (or missing) cell. -/
theorem completedMask_ok {s e : Datetime} (hs : s.aware = true) (he : e.aware = true)
    {r : CardRow} (hr : cellAware r.completed_date = true) :
    completedMask s e r = .ok (completedInRangeB s e r) := by
  cases hcd : r.completed_date with
  | none =>
      simp [completedMask, cellGe, cellLe, completedInRangeB, hcd, bind, Except.bind, pure,
        Except.pure]
  | some d =>
      have hd : d.aware = true := by simpa [cellAware, hcd] using hr
      simp [completedMask, cellGe, cellLe, completedInRangeB, hcd, hd, hs, he, bind,
        Except.bind, pure, Except.pure]

/-- On a non-empty frame with aware created dates, the date filter is the
plain filter against the localized bounds. -/
theorem filter_by_date_range_ok {df : List CardRow} {s e : Datetime}
    (hne : df ≠ [])
    (haw : ∀ r ∈ df, cellAware r.created_date = true) :
    filter_by_date_range df s e
      = .ok (df.filter (createdInRangeB (localize_utc s) (localize_utc e))) := by
  have hemp : df.isEmpty = false := by
    cases df with
    | nil => exact absurd rfl hne
    | cons _ _ => rfl
  simp only [filter_by_date_range, hemp, Bool.false_eq_true, if_false, bound_norm]
  exact filterE_eq_ok (fun r hr => createdMask_ok rfl rfl (haw r hr))

/-- On a non-empty frame with aware completed dates, the completed count
is the length of the plain filter against the localized bounds. -/
theorem get_cards_completed_count_ok {df : List CardRow} {s e : Datetime}
    (hne : df ≠ [])
    (haw : ∀ r ∈ df, cellAware r.completed_date = true) :
    get_cards_completed_count df s e
      = .ok (df.filter (completedInRangeB (localize_utc s) (localize_utc e))).length := by
  have hemp : df.isEmpty = false := by
    cases df with
    | nil => exact absurd rfl hne
    | cons _ _ => rfl
  simp only [get_cards_completed_count, hemp, Bool.false_eq_true, if_false, bound_norm]
  rw [filterE_eq_ok (fun r hr => completedMask_ok rfl rfl (haw r hr))]
  rfl

/-- Counterexample row for C2: a card whose stored timestamps are
timezone-aware. -/
def c2Row : CardRow :=
  { id := "card2", name := "Tarefa B", list := "Concluído",
    created_date := some ⟨90000, true⟩, completed_date := some ⟨100000, true⟩,
    due_date := none, is_overdue := false, is_closed := false, members := [],
    member_count := 0, labels := [], label_count := 0,
    completion_time_days := some (10000 / 86400 : Rat) }

/-- A naive range start (no timezone). -/
def naiveStart : Datetime := ⟨0, false⟩

/-- A naive range end (no timezone). -/
def naiveEnd : Datetime := ⟨172800, false⟩

/-- Counterexample to C2: a date-range operation given naive bounds while
the stored card timestamps are aware returns an ordinary count — it does
not raise any timezone error. -/
theorem naive_bounds_do_not_raise :
    get_cards_created_count [c2Row] naiveStart naiveEnd = .ok 1 ∧
    get_cards_completed_count [c2Row] naiveStart naiveEnd = .ok 1 :=
  ⟨rfl, rfl⟩

/-- C2 as amended: every date-range operation silently localizes a naive
bound to UTC (`pytz.UTC.localize`) before comparing — calling with naive
bounds is identical to calling with the bounds localized to UTC — and
with aware stored timestamps and a non-empty card table the operations
return an ordinary result rather than raising; no timezone-mismatch
failure is possible from naive bounds. -/
theorem date_ops_localize_naive_bounds (df : List CardRow) (s e : Datetime) :
    filter_by_date_range df s e
        = filter_by_date_range df (localize_utc s) (localize_utc e) ∧
    get_cards_created_count df s e
        = get_cards_created_count df (localize_utc s) (localize_utc e) ∧
    get_cards_completed_count df s e
        = get_cards_completed_count df (localize_utc s) (localize_utc e) ∧
    get_average_completion_time df s e
        = get_average_completion_time df (localize_utc s) (localize_utc e) ∧
    get_cards_timeline df s e
        = get_cards_timeline df (localize_utc s) (localize_utc e) ∧
    get_cards_by_member df s e
        = get_cards_by_member df (localize_utc s) (localize_utc e) ∧
    get_cards_by_label df s e
        = get_cards_by_label df (localize_utc s) (localize_utc e) ∧
    get_productivity_ranking df s e
        = get_productivity_ranking df (localize_utc s) (localize_utc e) ∧
    (df ≠ [] → (∀ r ∈ df, cellAware r.created_date = true) →
       filter_by_date_range df s e
         = .ok (df.filter (createdInRangeB (localize_utc s) (localize_utc e)))) ∧
    (df ≠ [] → (∀ r ∈ df, cellAware r.completed_date = true) →
       get_cards_completed_count df s e
         = .ok (df.filter (completedInRangeB (localize_utc s) (localize_utc e))).length) := by
  have hfilter : filter_by_date_range df s e
      = filter_by_date_range df (localize_utc s) (localize_utc e) := by
    simp only [filter_by_date_range, bound_norm]
    simp only [localize_utc_idem]
  have hcompleted : get_cards_completed_count df s e
      = get_cards_completed_count df (localize_utc s) (localize_utc e) := by
    simp only [get_cards_completed_count, bound_norm]
    simp only [localize_utc_idem]
  refine ⟨hfilter, ?_, hcompleted, ?_, ?_, ?_, ?_, ?_, ?_, ?_⟩
  · simp only [get_cards_created_count, hfilter]
  · simp only [get_average_completion_time, bound_norm]
    simp only [localize_utc_idem]
  · simp only [get_cards_timeline, bound_norm]
    simp only [localize_utc_idem]
  · simp only [get_cards_by_member, hfilter]
  · simp only [get_cards_by_label, hfilter]
  · simp only [get_productivity_ranking, get_cards_by_member, hfilter]
  · intro hne haw
    exact filter_by_date_range_ok hne haw
  · intro hne haw
    exact get_cards_completed_count_ok hne haw

/-- Witness for C2's amended theorem at a concrete snapshot with naive
bounds and aware stored timestamps. -/
theorem date_ops_localize_naive_bounds_witness :
    get_cards_created_count [c2Row] naiveStart naiveEnd
        = get_cards_created_count [c2Row] (localize_utc naiveStart) (localize_utc naiveEnd) ∧
    filter_by_date_range [c2Row] naiveStart naiveEnd
        = .ok ([c2Row].filter (createdInRangeB (localize_utc naiveStart) (localize_utc naiveEnd))) ∧
    get_cards_completed_count [c2Row] naiveStart naiveEnd
        = .ok ([c2Row].filter
            (completedInRangeB (localize_utc naiveStart) (localize_utc naiveEnd))).length :=
  ⟨(date_ops_localize_naive_bounds [c2Row] naiveStart naiveEnd).2.1,
   (date_ops_localize_naive_bounds [c2Row] naiveStart naiveEnd).2.2.2.2.2.2.2.2.1
     (by decide) (by decide),
   (date_ops_localize_naive_bounds [c2Row] naiveStart naiveEnd).2.2.2.2.2.2.2.2.2
     (by decide) (by decide)⟩

/-- The action comparison is total. -/
theorem actionLe_total : ∀ a b : TrelloAction, actionLe a b = true ∨ actionLe b a = true := by
  intro a b
  simp only [actionLe, decide_eq_true_eq]
  omega

/-- The action comparison is transitive. -/
theorem actionLe_trans :
    ∀ a b c : TrelloAction, actionLe a b = true → actionLe b c = true → actionLe a c = true := by
  intro a b c
  simp only [actionLe, decide_eq_true_eq]
  omega

/-- The loop condition selecting a list-move into the done list:
`type == 'updateCard'`, a `listAfter` payload, and a destination name
normalizing to "concluído". -/
def isDoneMoveB (a : TrelloAction) : Bool :=
  a.type == "updateCard" &&
    match a.listAfterName with
    | some n => normName n == "concluído"
    | none => false

/-- C6's specification of the derived creation date: the timestamp of an
earliest creation action, or the last-activity fallback when no creation
action exists (absent only when that is also missing). -/
def earliestCreationSpec (c : TrelloCard) (d : Option Datetime) : Prop :=
  (∃ a ∈ c.actions, a.type = "createCard" ∧ d = some a.date ∧
     ∀ b ∈ c.actions, b.type = "createCard" → a.date.epoch ≤ b.date.epoch)
  ∨ ((∀ a ∈ c.actions, a.type ≠ "createCard") ∧ d = c.dateLastActivity)

/-- C5's specification of the derived completion date of a done-list
card: the timestamp of a most recent list-move into the done list, or the
last-activity fallback when no such move exists. -/
def mostRecentDoneMoveSpec (c : TrelloCard) (d : Option Datetime) : Prop :=
  (∃ a ∈ c.actions, isDoneMoveB a = true ∧ d = some a.date ∧
     ∀ b ∈ c.actions, isDoneMoveB b = true → b.date.epoch ≤ a.date.epoch)
  ∨ ((∀ a ∈ c.actions, isDoneMoveB a = false) ∧ d = c.dateLastActivity)

/-- C6: for every card, the derived creation date is the timestamp of the
earliest creation-kind action of its timestamp-sorted action list,
falling back to the card's last-activity timestamp when no creation
action exists (and absent only when that too is missing). -/
theorem created_at_earliest_creation_action
    (L M : List (String × String)) (now : Int) (c : TrelloCard) (row : CardRow)
    (h : process_card L M now c = some row) :
    earliestCreationSpec c row.created_date := by
  have hc' : c.closed = false := by
    by_cases hcc : c.closed = true
    · simp [process_card, hcc] at h
    · simpa using hcc
  simp only [process_card, hc', Bool.false_eq_true, if_false] at h
  injection h with h
  subst h
  simp only [earliestCreationSpec]
  by_cases hemp : c.actions.isEmpty = true
  · have hnil : c.actions = [] := List.isEmpty_iff.mp hemp
    right
    refine ⟨?_, ?_⟩
    · intro a ha
      rw [hnil] at ha
      simp at ha
    · simp [hemp]
  · have hemp' : c.actions.isEmpty = false := by simpa using hemp
    simp only [hemp', Bool.false_eq_true, if_false]
    cases hf : (sortBy actionLe c.actions).find? (fun a => a.type == "createCard") with
    | none =>
        right
        have hno := List.find?_eq_none.mp hf
        refine ⟨?_, by simp⟩
        intro a ha hcreate
        exact absurd (by simpa using hcreate) (by simpa using hno a (mem_sortBy.mpr ha))
    | some a =>
        left
        have hmem : a ∈ c.actions := mem_sortBy.mp (List.mem_of_find?_eq_some hf)
        have hpa : a.type = "createCard" := by simpa using List.find?_some hf
        refine ⟨a, hmem, hpa, by simp, ?_⟩
        intro b hb hbt
        have hpb : (fun x : TrelloAction => x.type == "createCard") b = true := by simpa using hbt
        have hpw := sortBy_pairwise actionLe actionLe_total actionLe_trans c.actions
        rcases find?_first_of_pairwise hpw hf b (mem_sortBy.mpr hb) hpb with heq | hR
        · exact heq ▸ le_refl _
        · simpa [actionLe] using hR

/-- Scenario card for C6: the action list contains only an `updateCard`. -/
def c6Card : TrelloCard :=
  { id := "card6", name := "Tarefa F", closed := false, idList := some "l1",
    dateLastActivity := some ⟨500, true⟩, due := none, dueComplete := false,
    idMembers := [], labels := [],
    actions := [⟨"updateCard", ⟨400, true⟩, some "Fazendo"⟩] }

/-- The derived row of `c6Card`: creation falls back to
`dateLastActivity`. -/
def c6Row : CardRow :=
  { id := "card6", name := "Tarefa F", list := "Fazendo",
    created_date := some ⟨500, true⟩, completed_date := none, due_date := none,
    is_overdue := false, is_closed := false, members := [], member_count := 0,
    labels := [], label_count := 0, completion_time_days := none }

/-- Witness for C6 with a creation-less action list. -/
theorem created_at_earliest_creation_action_witness :
    process_card [("l1", "Fazendo")] [] 1000 c6Card = some c6Row ∧
    earliestCreationSpec c6Card c6Row.created_date :=
  ⟨by decide,
   created_at_earliest_creation_action [("l1", "Fazendo")] [] 1000 c6Card c6Row (by decide)⟩

/-- C5: for every card on the done list, the derived completion date is
the timestamp of the most recent list-move whose destination normalizes
to the done-list name, falling back to the last-activity timestamp when
no such move exists. -/
theorem completed_at_most_recent_done_move
    (L M : List (String × String)) (now : Int) (c : TrelloCard) (row : CardRow)
    (h : process_card L M now c = some row)
    (hdone : normName row.list = "concluído") :
    mostRecentDoneMoveSpec c row.completed_date := by
  have hc' : c.closed = false := by
    by_cases hcc : c.closed = true
    · simp [process_card, hcc] at h
    · simpa using hcc
  simp only [process_card, hc', Bool.false_eq_true, if_false] at h
  injection h with h
  subst h
  have hdone' : normName ((c.idList.bind (dictLookup L)).getD "Desconhecida") = "concluído" :=
    hdone
  simp only [mostRecentDoneMoveSpec]
  simp only [hdone', beq_self_eq_true, if_true]
  by_cases hemp : c.actions.isEmpty = true
  · have hnil : c.actions = [] := List.isEmpty_iff.mp hemp
    right
    refine ⟨?_, ?_⟩
    · intro a ha
      rw [hnil] at ha
      simp at ha
    · simp [hemp]
  · have hemp' : c.actions.isEmpty = false := by simpa using hemp
    simp only [hemp', Bool.false_eq_true, if_false]
    cases hf : (sortBy actionLe c.actions).reverse.find? (fun a =>
        a.type == "updateCard" &&
          match a.listAfterName with
          | some n => normName n == "concluído"
          | none => false) with
    | none =>
        right
        have hno := List.find?_eq_none.mp hf
        refine ⟨?_, by simp⟩
        intro a ha
        have := hno a (by simpa using mem_sortBy.mpr ha)
        simpa [isDoneMoveB] using this
    | some a =>
        left
        have hmem : a ∈ c.actions :=
          mem_sortBy.mp (by simpa using List.mem_of_find?_eq_some hf)
        have hpa : isDoneMoveB a = true := by
          have := List.find?_some hf
          simpa [isDoneMoveB] using this
        refine ⟨a, hmem, hpa, by simp, ?_⟩
        intro b hb hbt
        have hpb : (fun x : TrelloAction =>
            x.type == "updateCard" &&
              match x.listAfterName with
              | some n => normName n == "concluído"
              | none => false) b = true := by
          simpa [isDoneMoveB] using hbt
        have hpw := sortBy_pairwise actionLe actionLe_total actionLe_trans c.actions
        have hpwrev : ((sortBy actionLe c.actions).reverse).Pairwise
            (fun a b => actionLe b a = true) :=
          List.pairwise_reverse.mpr hpw
        rcases find?_first_of_pairwise hpwrev hf b
            (by simpa using mem_sortBy.mpr hb) hpb with heq | hR
        · exact heq ▸ le_refl _
        · simpa [actionLe] using hR

/-- Scenario card for C5: created at 10, moved into "Concluído" at 100,
out at 200, back in at 300; currently on the done list. -/
def c5Card : TrelloCard :=
  { id := "card5", name := "Tarefa C", closed := false, idList := some "l2",
    dateLastActivity := some ⟨350, true⟩, due := none, dueComplete := false,
    idMembers := [], labels := [],
    actions :=
      [⟨"createCard", ⟨10, true⟩, none⟩,
       ⟨"updateCard", ⟨100, true⟩, some "Concluído"⟩,
       ⟨"updateCard", ⟨200, true⟩, some "Fazendo"⟩,
       ⟨"updateCard", ⟨300, true⟩, some "Concluído"⟩] }

/-- The derived row of `c5Card`: completion is the most recent move into
the done list (epoch 300). -/
def c5Row : CardRow :=
  { id := "card5", name := "Tarefa C", list := "Concluído",
    created_date := some ⟨10, true⟩, completed_date := some ⟨300, true⟩,
    due_date := none, is_overdue := false, is_closed := false, members := [],
    member_count := 0, labels := [], label_count := 0,
    completion_time_days := some (((290 : Int) : Rat) / 86400) }

/-- Witness for C5 at a card that re-entered the done list. -/
theorem completed_at_most_recent_done_move_witness :
    process_card [("l2", "Concluído")] [] 1000 c5Card = some c5Row ∧
    normName c5Row.list = "concluído" ∧
    mostRecentDoneMoveSpec c5Card c5Row.completed_date :=
  ⟨by rfl, by decide,
   completed_at_most_recent_done_move [("l2", "Concluído")] [] 1000 c5Card c5Row
     (by rfl) (by decide)⟩

/-- Localization does not change the stored instant. -/
theorem localize_epoch (d : Datetime) : (localize_utc d).epoch = d.epoch := rfl

/-- C7: for any range with `start ≤ end`, the timeline has exactly
`(end − start).days + 1` rows; row `k` carries the timestamp
`start + k` days (hence the rows cover contiguous ascending calendar
days with no gaps), and each row holds the counts of cards created and
completed on that row's calendar day (zero when there is no activity). -/
theorem timeline_rows_shape (df : List CardRow) (s e : Datetime) (tl : List TimelineRow)
    (hok : get_cards_timeline df s e = .ok tl) (hse : s.epoch ≤ e.epoch) :
    tl.length = (e.epoch - s.epoch).toNat / 86400 + 1 ∧
    (∀ (k : Nat) (hk : k < tl.length),
       (tl.get ⟨k, hk⟩).date.epoch = s.epoch + k * 86400 ∧
       (tl.get ⟨k, hk⟩).created
         = (df.filter (fun r => onDay r.created_date (dateOf (tl.get ⟨k, hk⟩).date))).length ∧
       (tl.get ⟨k, hk⟩).completed
         = (df.filter (fun r => onDay r.completed_date (dateOf (tl.get ⟨k, hk⟩).date))).length) := by
  have hdf : df.isEmpty = false := by
    cases hdfe : df.isEmpty
    · rfl
    · rw [get_cards_timeline] at hok
      simp [hdfe] at hok
  simp only [get_cards_timeline, hdf, Bool.false_eq_true, if_false, bound_norm] at hok
  injection hok with hok
  subst hok
  have hrange : date_range (localize_utc s) (localize_utc e)
      = (List.range ((e.epoch - s.epoch).toNat / 86400 + 1)).map
          (fun k : Nat => ({ epoch := s.epoch + (k : Int) * 86400, aware := true } : Datetime)) := by
    simp [date_range, localize_utc, hse]
  rw [hrange]
  constructor
  · simp
  · intro k hk
    simp [List.get_eq_getElem, List.getElem_map, List.getElem_range, timelineRowOf]

/-- The timeline of `[c2Row]` over the probe range. -/
def c7Timeline : List TimelineRow :=
  [⟨⟨0, true⟩, 0, 0⟩, ⟨⟨86400, true⟩, 1, 1⟩]

/-- Witness for C7: the two-day probe range yields exactly
`(end − start).days + 1 = 2` rows. -/
theorem timeline_rows_shape_witness :
    c7Timeline.length = (probeEnd.epoch - probeStart.epoch).toNat / 86400 + 1 :=
  (timeline_rows_shape [c2Row] probeStart probeEnd c7Timeline (by rfl) (by decide)).1

/-- `filterMap` keeps every element of a list on which the partial
function is everywhere defined. -/
theorem filterMap_length_of_all_isSome {l : List α} {f : α → Option β}
    (h : ∀ x ∈ l, (f x).isSome = true) : (l.filterMap f).length = l.length := by
  induction l with
  | nil => rfl
  | cons x xs ih =>
      rcases Option.isSome_iff_exists.mp (h x (List.mem_cons_self x xs)) with ⟨b, hb⟩
      simp [List.filterMap_cons, hb,
        ih (fun y hy => h y (List.mem_cons_of_mem x hy))]

/-- C8: the average completion time over a range is the mean of
`completion_time_days` over the cards completed in the range, and is
exactly `0` — an ordinary value, not an error — when no card was
completed in the range. -/
theorem average_cycle_time_mean_or_zero (df : List CardRow) (s e : Datetime)
    (hne : df ≠ [])
    (haw : ∀ r ∈ df, cellAware r.completed_date = true) :
    (df.filter (completedInRangeB (localize_utc s) (localize_utc e)) = [] →
       get_average_completion_time df s e = .ok (some 0)) ∧
    ((∀ r ∈ df.filter (completedInRangeB (localize_utc s) (localize_utc e)),
        r.completion_time_days.isSome = true) →
       get_average_completion_time df s e
         = .ok (some
             (((df.filter (completedInRangeB (localize_utc s) (localize_utc e))).filterMap
                  (fun r => r.completion_time_days)).sum
               / ((df.filter (completedInRangeB (localize_utc s) (localize_utc e))).length
                   : Rat)))) := by
  have hemp : df.isEmpty = false := by
    cases df with
    | nil => exact absurd rfl hne
    | cons _ _ => rfl
  have hfe : filterE (completedMask (localize_utc s) (localize_utc e)) df
      = .ok (df.filter (completedInRangeB (localize_utc s) (localize_utc e))) :=
    filterE_eq_ok (fun r hr => completedMask_ok rfl rfl (haw r hr))
  simp only [get_average_completion_time, hemp, Bool.false_eq_true, if_false, bound_norm, hfe]
  set fl := df.filter (completedInRangeB (localize_utc s) (localize_utc e)) with hfldef
  constructor
  · intro h0
    simp [Except.map, h0]
  · intro hall
    simp only [Except.map]
    by_cases hflnil : fl = []
    · simp [hflnil]
    · have hlen : fl.length ≠ 0 := by simpa [List.length_eq_zero] using hflnil
      have hvlen : (fl.filterMap (fun r => r.completion_time_days)).length = fl.length :=
        filterMap_length_of_all_isSome hall
      have hvne : (fl.filterMap (fun r => r.completion_time_days)).isEmpty = false := by
        cases hv : (fl.filterMap (fun r => r.completion_time_days)).isEmpty
        · rfl
        · have hnil := List.isEmpty_iff.mp hv
          rw [hnil] at hvlen
          exact absurd hvlen.symm hlen
      simp [hlen, hvne, hvlen]

/-- End of the three-day probe range used by C8's witness. -/
def c8End : Datetime := ⟨172800, true⟩

/-- Witness for C8 at a snapshot with one card completed in range. -/
theorem average_cycle_time_mean_or_zero_witness :
    get_average_completion_time [c2Row] probeStart c8End
      = .ok (some
          ((([c2Row].filter (completedInRangeB (localize_utc probeStart) (localize_utc c8End))).filterMap
               (fun r => r.completion_time_days)).sum
            / (([c2Row].filter
                  (completedInRangeB (localize_utc probeStart) (localize_utc c8End))).length
                : Rat))) :=
  (average_cycle_time_mean_or_zero [c2Row] probeStart c8End (by decide) (by decide)).2
    (by decide)

/-- Every record of the member explosion carries `created = 1`. -/
theorem explodeMembers_created_one (rows : List CardRow) :
    ∀ p ∈ explodeMembers rows, p.created = 1 := by
  intro p hp
  simp only [explodeMembers, List.mem_flatMap] at hp
  rcases hp with ⟨r, _, hpr⟩
  by_cases hm : r.members.isEmpty = true
  · simp only [hm, if_true, List.mem_singleton] at hpr
    rw [hpr]
  · have hm' : r.members.isEmpty = false := by simpa using hm
    simp only [hm', Bool.false_eq_true, if_false, List.mem_map] at hpr
    rcases hpr with ⟨mname, _, hpr⟩
    rw [← hpr]

/-- A list mapped to `1` everywhere sums to its length. -/
theorem sum_map_eq_length_of_one {l : List α} {f : α → Nat} (h : ∀ x ∈ l, f x = 1) :
    (l.map f).sum = l.length := by
  induction l with
  | nil => rfl
  | cons x xs ih =>
      simp [h x (List.mem_cons_self x xs),
        ih (fun y hy => h y (List.mem_cons_of_mem x hy))]
      omega

/-- Every row of the grouped by-member table aggregates at least one
explosion record, so its `created` sum is at least 1. -/
theorem by_member_created_pos {df : List CardRow} {s e : Datetime} {mem : List MemberRow}
    (h : get_cards_by_member df s e = .ok mem) :
    ∀ m ∈ mem, 1 ≤ m.created := by
  intro m hm
  cases hf : filter_by_date_range df s e with
  | error err =>
      rw [get_cards_by_member] at h
      simp [hf, bind, Except.bind] at h
  | ok fl =>
      rw [get_cards_by_member] at h
      simp only [hf, bind, Except.bind] at h
      by_cases hrec : (explodeMembers fl).isEmpty = true
      · simp only [hrec, if_true, pure, Except.pure] at h
        injection h with h
        rw [← h] at hm
        simp at hm
      · have hrec' : (explodeMembers fl).isEmpty = false := by simpa using hrec
        simp only [hrec', Bool.false_eq_true, if_false, pure, Except.pure] at h
        injection h with h
        rw [← h] at hm
        have hm2 : m ∈ groupByMemberSum (explodeMembers fl) := mem_sortBy.mp hm
        simp only [groupByMemberSum, List.mem_map] at hm2
        rcases hm2 with ⟨k, hk, hmk⟩
        have hk2 : k ∈ (explodeMembers fl).map (fun r => r.member) :=
          mem_uniqueKeys.mp (mem_sortBy.mp hk)
        rcases List.mem_map.mp hk2 with ⟨p, hp, hpk⟩
        have hpgrp : p ∈ (explodeMembers fl).filter (fun r => r.member == k) :=
          List.mem_filter.mpr ⟨hp, by simp [hpk]⟩
        have hgrplen :
            1 ≤ ((explodeMembers fl).filter (fun r => r.member == k)).length :=
          List.length_pos.mpr (List.ne_nil_of_mem hpgrp)
        have hsum : (((explodeMembers fl).filter (fun r => r.member == k)).map
            (fun r => r.created)).sum
              = ((explodeMembers fl).filter (fun r => r.member == k)).length :=
          sum_map_eq_length_of_one
            (fun x hx => explodeMembers_created_one fl x (List.mem_of_mem_filter hx))
        rw [← hmk]
        simpa [hsum] using hgrplen

/-- C10: every productivity-ranking row aggregates at least one per-member
card appearance, so `created ≥ 1` and the completion rate
`completed / created * 100` never divides by zero. -/
theorem ranking_created_positive (df : List CardRow) (s e : Datetime)
    (rk : List RankRow) (row : RankRow)
    (hok : get_productivity_ranking df s e = .ok rk) (hmem : row ∈ rk) :
    1 ≤ row.created ∧
    row.completion_rate = round1 ((row.completed : Rat) / (row.created : Rat) * 100) := by
  cases hbm : get_cards_by_member df s e with
  | error err =>
      rw [get_productivity_ranking] at hok
      simp [hbm, bind, Except.bind] at hok
  | ok mem =>
      rw [get_productivity_ranking] at hok
      simp only [hbm, bind, Except.bind] at hok
      by_cases hmemp : mem.isEmpty = true
      · simp only [hmemp, if_true, pure, Except.pure] at hok
        injection hok with hok
        rw [← hok] at hmem
        simp at hmem
      · have hmemp' : mem.isEmpty = false := by simpa using hmemp
        simp only [hmemp', Bool.false_eq_true, if_false, pure, Except.pure] at hok
        injection hok with hok
        rw [← hok] at hmem
        have hmem2 := mem_sortBy.mp hmem
        rcases List.mem_map.mp hmem2 with ⟨m, hm, hmrow⟩
        have hpos : 1 ≤ m.created := by_member_created_pos hbm m hm
        constructor
        · rw [← hmrow]
          exact hpos
        · rw [← hmrow]

/-- A card assigned to one member, completed inside the probe range. -/
def c10Row : CardRow :=
  { id := "card10", name := "Tarefa M", list := "Concluído",
    created_date := some ⟨1000, true⟩, completed_date := some ⟨2000, true⟩,
    due_date := none, is_overdue := false, is_closed := false,
    members := ["Alice"], member_count := 1, labels := [], label_count := 0,
    completion_time_days := some (((1000 : Int) : Rat) / 86400) }

/-- The single productivity-ranking row of `[c10Row]`. -/
def c10Rank : RankRow :=
  { member := "Alice", created := 1, completed := 1,
    completion_rate := round1 (((1 : Nat) : Rat) / ((1 : Nat) : Rat) * 100) }

/-- Witness for C10 at a one-card, one-member snapshot. -/
theorem ranking_created_positive_witness :
    1 ≤ c10Rank.created ∧
    c10Rank.completion_rate
      = round1 ((c10Rank.completed : Rat) / (c10Rank.created : Rat) * 100) :=
  ranking_created_positive [c10Row] probeStart probeEnd [c10Rank] c10Rank (by rfl)
    (List.mem_cons_self c10Rank [])

/-- Summing per-day bucket counts over a duplicate-free day list counts
exactly the rows whose (selected) date falls on one of those days. -/
theorem sum_day_counts (days : List Int) (hnd : days.Nodup)
    (sel : CardRow → Option Datetime) :
    ∀ df : List CardRow,
      (days.map (fun d => (df.filter (fun r => onDay (sel r) d)).length)).sum
        = (df.filter (fun r =>
            match sel r with
            | some t => decide (dateOf t ∈ days)
            | none => false)).length := by
  intro df
  induction df with
  | nil => simp
  | cons r rs ih =>
      have hmap : days.map (fun d => ((r :: rs).filter (fun x => onDay (sel x) d)).length)
          = days.map (fun d => (if onDay (sel r) d then 1 else 0)
              + ((rs.filter (fun x => onDay (sel x) d)).length)) := by
        refine List.map_congr_left (fun d _ => ?_)
        by_cases hh : onDay (sel r) d = true
        · simp [List.filter_cons, hh]
          omega
        · simp [List.filter_cons, hh]
      rw [hmap, sum_map_add_distrib, ih]
      cases hsel : sel r with
      | none =>
          simp [onDay, hsel, List.filter_cons]
      | some t =>
          have hind : (days.map (fun d => if onDay (some t) d then (1 : Nat) else 0)).sum
              = (if dateOf t ∈ days then 1 else 0) := by
            simpa [onDay, beq_iff_eq] using sum_indicator_nodup days hnd (dateOf t)
          rw [hind]
          by_cases hmem : dateOf t ∈ days
          · simp [List.filter_cons, hsel, hmem]
            omega
          · simp [List.filter_cons, hsel, hmem]

/-- A date lies on one of the `(d2 − d1) + 1` consecutive days starting
at `d1` exactly when its instant lies in the corresponding second
range. -/
theorem day_mem_iff (dt : Datetime) (d1 d2 : Int) (hd : d1 ≤ d2) :
    (dateOf dt ∈ (List.range ((d2 - d1).toNat + 1)).map (fun k : Nat => d1 + (k : Int)))
      ↔ (d1 * 86400 ≤ dt.epoch ∧ dt.epoch ≤ d2 * 86400 + 86399) := by
  simp only [dateOf, List.mem_map, List.mem_range]
  constructor
  · rintro ⟨k, hk, hke⟩
    omega
  · intro h
    exact ⟨(dt.epoch / 86400 - d1).toNat, by omega, by omega⟩

/-- Counterexample to C3 as stated: for the range
`[1970-01-01T00:00Z, 1970-01-02T00:00Z]` and one card created at epoch
90000 (after the range end but on the end's calendar day), the
timeline's created column sums to 1 while the created count is 0. -/
theorem timeline_created_sum_mismatch :
    get_cards_timeline [c2Row] probeStart probeEnd = .ok c7Timeline ∧
    get_cards_created_count [c2Row] probeStart probeEnd = .ok 0 ∧
    (c7Timeline.map (fun r => r.created)).sum ≠ 0 :=
  ⟨rfl, rfl, by decide⟩

/-- C3 as amended: conservation holds for day-aligned ranges — when the
range starts at a midnight and ends at the last second of a (not
earlier) day, the timeline's created column sums to exactly the created
count of the same range. -/
theorem timeline_conservation_day_aligned (df : List CardRow) (d1 d2 : Int)
    (hne : df ≠ [])
    (haw : ∀ r ∈ df, cellAware r.created_date = true)
    (hd : d1 ≤ d2) :
    Except.map (fun tl : List TimelineRow => (tl.map (fun r => r.created)).sum)
        (get_cards_timeline df ⟨d1 * 86400, true⟩ ⟨d2 * 86400 + 86399, true⟩)
      = get_cards_created_count df ⟨d1 * 86400, true⟩ ⟨d2 * 86400 + 86399, true⟩ := by
  have hemp : df.isEmpty = false := by
    cases df with
    | nil => exact absurd rfl hne
    | cons _ _ => rfl
  have hcnt : get_cards_created_count df ⟨d1 * 86400, true⟩ ⟨d2 * 86400 + 86399, true⟩
      = .ok ((df.filter
          (createdInRangeB ⟨d1 * 86400, true⟩ ⟨d2 * 86400 + 86399, true⟩)).length) := by
    rw [get_cards_created_count, filter_by_date_range_ok hne haw]
    rfl
  have hc : decide ((⟨d1 * 86400, true⟩ : Datetime).epoch
      ≤ (⟨d2 * 86400 + 86399, true⟩ : Datetime).epoch) = true :=
    decide_eq_true (by show d1 * 86400 ≤ d2 * 86400 + 86399; omega)
  have hn : (((⟨d2 * 86400 + 86399, true⟩ : Datetime).epoch
        - (⟨d1 * 86400, true⟩ : Datetime).epoch).toNat) / 86400 + 1
      = (d2 - d1).toNat + 1 := by
    show ((d2 * 86400 + 86399 : Int) - d1 * 86400).toNat / 86400 + 1 = (d2 - d1).toNat + 1
    omega
  have hdr : date_range ⟨d1 * 86400, true⟩ ⟨d2 * 86400 + 86399, true⟩
      = (List.range ((d2 - d1).toNat + 1)).map
          (fun k : Nat =>
            ({ epoch := d1 * 86400 + (k : Int) * 86400, aware := true } : Datetime)) := by
    simp only [date_range, hc, if_true, hn]
  have htl : get_cards_timeline df ⟨d1 * 86400, true⟩ ⟨d2 * 86400 + 86399, true⟩
      = .ok ((date_range ⟨d1 * 86400, true⟩ ⟨d2 * 86400 + 86399, true⟩).map
          (timelineRowOf df)) := by
    rw [get_cards_timeline, if_neg (by simp [hemp])]
    rfl
  rw [hdr] at htl
  rw [htl, hcnt]
  simp only [Except.map]
  congr 1
  rw [List.map_map, List.map_map]
  have hinj : Function.Injective (fun k : Nat => d1 + (k : Int)) := by
    intro a b hab
    simp only at hab
    omega
  have hnodup : ((List.range ((d2 - d1).toNat + 1)).map
      (fun k : Nat => d1 + (k : Int))).Nodup :=
    (List.nodup_range _).map hinj
  have hdays := sum_day_counts ((List.range ((d2 - d1).toNat + 1)).map
      (fun k : Nat => d1 + (k : Int))) hnodup (fun r => r.created_date) df
  rw [List.map_map] at hdays
  have hlhs : (List.range ((d2 - d1).toNat + 1)).map
        (((fun r : TimelineRow => r.created) ∘ timelineRowOf df) ∘
          (fun k : Nat =>
            ({ epoch := d1 * 86400 + (k : Int) * 86400, aware := true } : Datetime)))
      = (List.range ((d2 - d1).toNat + 1)).map
          ((fun d => (df.filter (fun r => onDay r.created_date d)).length) ∘
            (fun k : Nat => d1 + (k : Int))) := by
    refine List.map_congr_left (fun k _ => ?_)
    simp only [Function.comp, timelineRowOf]
    have hgd : dateOf ({ epoch := d1 * 86400 + (k : Int) * 86400, aware := true } : Datetime)
        = d1 + (k : Int) := by
      simp only [dateOf]
      omega
    rw [hgd]
  have hpred : ∀ r : CardRow,
      (match r.created_date with
       | some t => decide (dateOf t ∈ (List.range ((d2 - d1).toNat + 1)).map
           (fun k : Nat => d1 + (k : Int)))
       | none => false)
        = createdInRangeB ⟨d1 * 86400, true⟩ ⟨d2 * 86400 + 86399, true⟩ r := by
    intro r
    cases hcr : r.created_date with
    | none => simp [createdInRangeB, hcr]
    | some t =>
        simp only [createdInRangeB, hcr]
        rw [← Bool.decide_and]
        exact decide_eq_decide.mpr (day_mem_iff t d1 d2 hd)
  rw [hlhs, hdays, List.filter_congr (fun r _ => hpred r)]

/-- Witness for C3's amended conservation over the aligned two-day range
starting at epoch 0. -/
theorem timeline_conservation_day_aligned_witness :
    Except.map (fun tl : List TimelineRow => (tl.map (fun r => r.created)).sum)
        (get_cards_timeline [c10Row] ⟨0 * 86400, true⟩ ⟨1 * 86400 + 86399, true⟩)
      = get_cards_created_count [c10Row] ⟨0 * 86400, true⟩ ⟨1 * 86400 + 86399, true⟩ :=
  timeline_conservation_day_aligned [c10Row] 0 1 (by decide) (by decide) (by decide)
